import Mathlib

set_option maxRecDepth 4000

/-!
# Verification of the LoginGPT flow-crawling engine

A shallow embedding, in Lean 4, of the core flow-crawling logic of
`worker/modules/loginpagedetection/crawler.js`:

* the select-option enumerator (`deduplicateOptionsWithMapping` and the
  flow-variant construction inside `runCrawler`),
* the click-oracle response parser (the `if`/`else` chain over the response
  line inside `continueFlow`, including the `Click Point: <int>, <int>`
  regular-expression search),
* the `continueFlow` main interaction loop as a state machine stepping over a
  sequence of oracle responses and page observations, and
* the terminal-entry logic and trace persistence.

JavaScript strings are modelled as Lean `String`s (operating on their
underlying `List Char`), machine integers as `Nat` (the parsed coordinates are
decimal digit strings, hence non-negative), `null`/`undefined` as `Option`,
and the filesystem / browser side effects are abstracted: each loop iteration
consumes one `IterInput` holding the oracle's response line, the page's
`document.elementFromPoint` answer (a function of the coordinates), and the
page URL observed at the following screenshot.
-/

namespace LoginGPT

/-! ## Click-oracle response parsing

`crawler.js` classifies the trimmed response line with two exact string
comparisons and the regular expression `/Click Point:\s*(\d+),\s*(\d+)/`
(an unanchored search).  We model the regex by explicit scanning over the
character list. -/

/-- Result of classifying one oracle response line, mirroring the branches of
the `if`/`else if` chain in `continueFlow`. -/
inductive ParsedResponse where
  | noElement
  | noPopup
  | click (x y : Nat)
  | malformed
  deriving DecidableEq

/-- `\s` of the JavaScript regex (whitespace). -/
def isJsSpace (c : Char) : Bool := c.isWhitespace

/-- Decimal digit run to a number, as JavaScript `Number` on a `\d+` capture. -/
def digitsToNat (ds : List Char) : Nat :=
  ds.foldl (fun n c => n * 10 + (c.toNat - '0'.toNat)) 0

/-- Try to consume the literal `lit` at the head of `cs`; return the rest. -/
def dropLit : List Char → List Char → Option (List Char)
  | [], cs => some cs
  | _ :: _, [] => none
  | l :: ls, c :: cs => if c = l then dropLit ls cs else none

/-- Match `Click Point:\s*(\d+),\s*(\d+)` anchored at the start of `cs`. -/
def matchClickAt (cs : List Char) : Option (Nat × Nat) :=
  match dropLit "Click Point:".data cs with
  | none => none
  | some r0 =>
    let r1 := r0.dropWhile isJsSpace
    let ds1 := r1.takeWhile Char.isDigit
    if ds1 = [] then none
    else
      match r1.dropWhile Char.isDigit with
      | ',' :: r3 =>
        let r4 := r3.dropWhile isJsSpace
        let ds2 := r4.takeWhile Char.isDigit
        if ds2 = [] then none
        else some (digitsToNat ds1, digitsToNat ds2)
      | _ => none

/-- Unanchored regex search: first position (left to right) where the
`Click Point` pattern matches. -/
def findClick : List Char → Option (Nat × Nat)
  | [] => none
  | c :: cs =>
    match matchClickAt (c :: cs) with
    | some p => some p
    | none => findClick cs

/-- The response classification of `continueFlow`: two exact matches for "no
element", one for "no popups", then the regex; anything else is malformed. -/
def parseResponse (s : String) : ParsedResponse :=
  if s = "No login button detected" ∨ s = "Error: No relevant element detected." then
    .noElement
  else if s = "No popups found" then .noPopup
  else
    match findClick s.data with
    | some (x, y) => .click x y
    | none => .malformed

/-! ## Select-option enumerator

`deduplicateOptionsWithMapping` keys the `seenKeys` map by
`JSON.stringify(opts)`; on arrays of strings `JSON.stringify` is injective,
so two keys are equal exactly when the option lists are equal, and the stored
`uniqueIndex` is the index of the first equal list in `uniqueOptions`. -/

/-- `mapping[i].push(v)` — append `v` to the `i`-th inner list. -/
def appendAt : List (List Nat) → Nat → Nat → List (List Nat)
  | [], _, _ => []
  | g :: rest, 0, v => (g ++ [v]) :: rest
  | g :: rest, n + 1, v => g :: appendAt rest n v

/-- The `optionsArray.forEach((opts, idx) => ...)` loop of
`deduplicateOptionsWithMapping`, with the running index made explicit. -/
def dedupAux : List (List String) → Nat → List (List String) → List (List Nat) →
    List (List String) × List (List Nat)
  | [], _, uniq, mapping => (uniq, mapping)
  | opts :: rest, idx, uniq, mapping =>
    match uniq.findIdx? (fun u => u = opts) with
    | some ui => dedupAux rest (idx + 1) uniq (appendAt mapping ui idx)
    | none => dedupAux rest (idx + 1) (uniq ++ [opts]) (mapping ++ [[idx]])

/-- `deduplicateOptionsWithMapping` of `crawler.js`: returns
`(uniqueOptions, mapping)`. -/
def deduplicateOptionsWithMapping (optionsArray : List (List String)) :
    List (List String) × List (List Nat) :=
  dedupAux optionsArray 0 [] []

/-! ## Flow-variant construction (inside `runCrawler`)

`defaultCombination = uniqueOptions.map(options => options[0])`; indexing an
empty array gives `undefined`, so a combination entry is an `Option String`
(`none` = `undefined`). -/

/-- `uniqueOptions.map(options => options[0])`. -/
def defaultCombinationOf (uniq : List (List String)) : List (Option String) :=
  uniq.map List.head?

/-- The nested `forEach` that builds `flows`: for group `gi` with option list
`os`, push `default.set gi option` for every `option` with
`option !== defaultCombination[gi]`, in option order, groups in order. -/
def buildFlowsAux (dflt : List (Option String)) :
    List (List String) → Nat → List (List (Option String))
  | [], _ => []
  | os :: rest, gi =>
    os.filterMap
      (fun o => if some o = dflt.getD gi none then none else some (dflt.set gi (some o)))
      ++ buildFlowsAux dflt rest (gi + 1)

/-- The `flows` array built by `runCrawler` from the deduplicated groups. -/
def buildFlows (uniq : List (List String)) : List (List (Option String)) :=
  buildFlowsAux (defaultCombinationOf uniq) uniq 0

/-- The sequence of `performFlow` invocations `runCrawler` schedules for one
URL, identified by their `selectCombination` argument: `null` (= `none`) for
the single no-dropdown run, otherwise one entry per generated flow variant
(the loop `for (let i = 0; i < flows.length; i++)` has no cap). -/
def runCrawlerSchedule (selectOptions : List (List String)) :
    List (Option (List (Option String))) :=
  if selectOptions = [] then [none]
  else (buildFlows (deduplicateOptionsWithMapping selectOptions).1).map some

/-! ## The Flow Executor (`continueFlow`)

One entry of the per-flow `actions` array: either the initial
`{selectOptions: ...}` object pushed by `performFlow` (its pairs abbreviated
to identifier/value), or a click-step object.  Reading `clickPosition` off the
select entry yields `undefined` in JavaScript, which is distinct from `null`;
`jsLastClickPosNotNull` below reproduces that. -/
inductive Action where
  | selectAction (selectOptions : Option (List (String × Option String)))
  | clickAction (step : Nat) (clickPosition : Option (Nat × Nat))
      (elementHTML : Option String) (screenshot : Nat) (url : String)
  deriving DecidableEq

/-- `truncateString` of `crawler.js`: strings longer than `maxLength = 200`
become their first 200 characters followed by `"..."`. -/
def truncateString (s : String) : String :=
  if s.data.length > 200 then String.mk (s.data.take 200) ++ "..." else s

/-- Why the `continueFlow` main loop was left (the `break` sites and the
`while` guard).  `crawler.js` distinguishes them only through log lines and
span attributes; the names follow those attributes. -/
inductive LoopExit where
  | noLoginButton
  | noPopups
  | invalidData
  | repeatedPosition
  | noElement
  | limitReached
  deriving DecidableEq

/-- What one iteration of the main loop observes from the outside world: the
oracle's response line for the current screenshot, the page's
`document.elementFromPoint(x, y)` answer (serialized `outerHTML`, or `null`),
and the page URL reported by the screenshot taken after a successful click. -/
structure IterInput where
  response : String
  elementAt : Nat → Nat → Option String
  nextUrl : String

/-- The mutable state of `continueFlow`'s main loop. `shot` is the
`screenshotIndex` of the screenshot the next query is about. -/
structure LoopState where
  clickCount : Nat
  shot : Nat
  currentUrl : String
  clickedPositions : List (Nat × Nat)
  previousElementHTML : Option String
  actions : List Action
  deriving DecidableEq

/-- Outcome of one loop iteration: continue looping, or `break` with a
`LoopExit`. -/
inductive StepResult where
  | cont (st : LoopState)
  | exit (st : LoopState) (e : LoopExit)
  deriving DecidableEq

/-- The null-position entry pushed at the `break` sites and after the loop:
`{step: actions.length, clickPosition: null, elementHTML: null, ...}`. -/
def nullAction (acts : List Action) (shot : Nat) (url : String) : Action :=
  .clickAction acts.length none none shot url

/-- One iteration of the `while (clickCount < clickLimit)` body of
`continueFlow` (crawler.js lines 984-1139): classify the response; on
`No login button detected` push a null entry and break; on `No popups found`
break; on an invalid line break; on `Click Point` reject an already-clicked
position (break), record it, resolve the element (`null` → push a null entry
and break), log — but do not act on — a repeat of the previous element's
HTML, push the click entry with truncated markup, click, advance the click
counter, and take the next screenshot. -/
def stepIter (st : LoopState) (i : IterInput) : StepResult :=
  match parseResponse i.response with
  | .noElement =>
    .exit { st with actions := st.actions ++ [nullAction st.actions st.shot st.currentUrl] }
      .noLoginButton
  | .noPopup => .exit st .noPopups
  | .malformed => .exit st .invalidData
  | .click x y =>
    if (x, y) ∈ st.clickedPositions then .exit st .repeatedPosition
    else
      match i.elementAt x y with
      | none =>
        .exit { st with
          clickedPositions := st.clickedPositions ++ [(x, y)]
          actions := st.actions ++ [nullAction st.actions st.shot st.currentUrl] }
          .noElement
      | some html =>
        .cont { st with
          clickedPositions := st.clickedPositions ++ [(x, y)]
          previousElementHTML := some html
          actions := st.actions ++
            [.clickAction st.actions.length (some (x, y)) (some (truncateString html))
              st.shot st.currentUrl]
          clickCount := st.clickCount + 1
          shot := st.shot + 1
          currentUrl := i.nextUrl }

/-- The main loop: guard `clickCount < clickLimit`, then run one iteration on
the next oracle response.  `none` means the supplied responses ran out while
the loop still wanted one — the real code would block on the socket forever,
so no trace is persisted on that path. -/
def runLoop (limit : Nat) : List IterInput → LoopState → Option (LoopState × LoopExit)
  | ins, st =>
    if limit ≤ st.clickCount then some (st, .limitReached)
    else
      match ins with
      | [] => none
      | i :: rest =>
        match stepIter st i with
        | .exit st' e => some (st', e)
        | .cont st' => runLoop limit rest st'

/-- `actions[actions.length - 1].clickPosition !== null` (crawler.js line
1142).  On the select entry `clickPosition` is `undefined`, and
`undefined !== null` holds.  `performFlow` always pushes one entry before the
loop, so the list is never empty there; the empty case takes the same value
as the select entry so that the condition is total. -/
def jsLastClickPosNotNull (acts : List Action) : Bool :=
  match acts.getLast? with
  | none => true
  | some (.selectAction _) => true
  | some (.clickAction _ none _ _ _) => false
  | some (.clickAction _ (some _) _ _ _) => true

/-- The post-loop terminal-entry logic of `continueFlow`:
`if (clickCount >= clickLimit || actions[actions.length - 1].clickPosition !== null)`
push one final null-position entry. -/
def finalizeActions (limit : Nat) (st : LoopState) : List Action :=
  if limit ≤ st.clickCount ∨ jsLastClickPosNotNull st.actions then
    st.actions ++ [nullAction st.actions st.shot st.currentUrl]
  else st.actions

/-- What one `continueFlow` invocation leaves behind.  `pending`: the loop is
still blocked on the oracle (no file written).  `thrown`: an exception
escaped `continueFlow` (in `crawler.js` only the trace-file write can still
throw; no oracle response produces this).  `persisted`: the actions array as
written to `click_actions_flow_<n>.json`, with the reason the loop ended. -/
inductive FlowResult where
  | pending
  | thrown (msg : String)
  | persisted (actions : List Action) (exit : LoopExit)
  deriving DecidableEq

/-- `continueFlow(page, url, client, parentDir, flowIndex, screenshotIndex,
clickCount, clickLimit, selectCombination, actions)` with the browser
abstracted away: the initial screenshot (index `shot0`, URL `url0`) is taken,
the main loop runs over `ins`, and the finalized actions array is persisted. -/
def continueFlow (url0 : String) (shot0 clickCount0 limit : Nat)
    (initActions : List Action) (ins : List IterInput) : FlowResult :=
  match runLoop limit ins
      { clickCount := clickCount0, shot := shot0, currentUrl := url0,
        clickedPositions := [], previousElementHTML := none,
        actions := initActions } with
  | none => .pending
  | some (st, e) => .persisted (finalizeActions limit st) e

/-- `performFlow`: pushes the single select-application entry (`null` when the
page has no dropdowns) and calls `continueFlow` with `screenshotIndex = 1`
and `clickCount = 0`. -/
def performFlow (selOpts : Option (List (String × Option String))) (limit : Nat)
    (url0 : String) (ins : List IterInput) : FlowResult :=
  continueFlow url0 1 0 limit [.selectAction selOpts] ins

/-- The non-null click positions recorded in a trace, in order. -/
def clickPositionsOf (acts : List Action) : List (Nat × Nat) :=
  acts.filterMap fun a =>
    match a with
    | .clickAction _ (some p) _ _ _ => some p
    | _ => none

/-! ## Helper lemmas -/

theorem clickPositionsOf_append (l₁ l₂ : List Action) :
    clickPositionsOf (l₁ ++ l₂) = clickPositionsOf l₁ ++ clickPositionsOf l₂ :=
  List.filterMap_append ..

theorem clickPositionsOf_nullAction (l : List Action) (acts : List Action)
    (sh : Nat) (u : String) :
    clickPositionsOf (l ++ [nullAction acts sh u]) = clickPositionsOf l := by
  rw [clickPositionsOf_append]
  simp [clickPositionsOf, nullAction]

theorem finalizeActions_getLast? (limit : Nat) (st : LoopState) :
    ∃ n h sh u, (finalizeActions limit st).getLast? = some (.clickAction n none h sh u) := by
  unfold finalizeActions
  split
  · exact ⟨st.actions.length, none, st.shot, st.currentUrl, List.getLast?_concat _⟩
  · rename_i hcond
    rw [not_or] at hcond
    obtain ⟨-, hlast⟩ := hcond
    unfold jsLastClickPosNotNull at hlast
    split at hlast
    · simp at hlast
    · simp at hlast
    · rename_i n h sh u heq
      exact ⟨n, h, sh, u, heq⟩
    · simp at hlast

theorem filterMap_if_length {β : Type} (d : Option String) (f : String → β)
    (os : List String) :
    (os.filterMap fun o => if some o = d then (none : Option β) else some (f o)).length =
      (os.filter fun o => !decide (some o = d)).length := by
  induction os with
  | nil => rfl
  | cons o rest ih =>
    by_cases h : some o = d
    · simp [List.filterMap_cons, List.filter_cons, h, ih]
    · simp [List.filterMap_cons, List.filter_cons, h, ih]

theorem buildFlowsAux_length (dflt : List (Option String)) (rest : List (List String)) :
    ∀ gi : Nat, (∀ k, k < rest.length → dflt.getD (gi + k) none = (rest.getD k []).head?) →
      (buildFlowsAux dflt rest gi).length =
        (rest.map fun g => (g.filter fun o => !decide (some o = g.head?)).length).sum := by
  induction rest with
  | nil => intro gi _; rfl
  | cons os tail ih =>
    intro gi halign
    have h0 : dflt.getD gi none = os.head? := by
      have := halign 0 (by simp)
      simpa using this
    have htail : ∀ k, k < tail.length → dflt.getD (gi + 1 + k) none = (tail.getD k []).head? := by
      intro k hk
      have := halign (k + 1) (by simp; omega)
      rw [show gi + 1 + k = gi + (k + 1) by omega]
      simpa using this
    rw [buildFlowsAux, List.length_append, List.map_cons, List.sum_cons,
      ih (gi + 1) htail,
      filterMap_if_length (dflt.getD gi none) (fun o => dflt.set gi (some o)) os, h0]

theorem buildFlowsAux_mem (dflt : List (Option String)) (rest : List (List String)) :
    ∀ gi v, v ∈ buildFlowsAux dflt rest gi →
      ∃ j o, gi ≤ j ∧ j < gi + rest.length ∧ some o ≠ dflt.getD j none ∧
        v = dflt.set j (some o) := by
  induction rest with
  | nil => intro gi v hv; exact absurd hv (by simp [buildFlowsAux])
  | cons os tail ih =>
    intro gi v hv
    rw [buildFlowsAux, List.mem_append] at hv
    rcases hv with hv | hv
    · rw [List.mem_filterMap] at hv
      obtain ⟨o, -, ho⟩ := hv
      by_cases h : some o = dflt.getD gi none
      · rw [if_pos h] at ho; exact absurd ho (by simp)
      · rw [if_neg h] at ho
        exact ⟨gi, o, le_refl gi, by simp, h, (Option.some.injEq .. ▸ ho).symm⟩
    · obtain ⟨j, o, hj1, hj2, hne, hset⟩ := ih (gi + 1) v hv
      exact ⟨j, o, by omega, by simp at hj2 ⊢; omega, hne, hset⟩

theorem getD_map_head? (l : List (List String)) :
    ∀ k, k < l.length → (l.map List.head?).getD k none = (l.getD k []).head? := by
  induction l with
  | nil => intro k hk; simp at hk
  | cons g tail ih =>
    intro k hk
    cases k with
    | zero => rfl
    | succ k' =>
      simp only [List.map_cons, List.getD_cons_succ]
      exact ih k' (by simpa using hk)

theorem buildFlows_length (uniq : List (List String)) :
    (buildFlows uniq).length =
      (uniq.map fun g => (g.filter fun o => !decide (some o = g.head?)).length).sum := by
  unfold buildFlows
  exact buildFlowsAux_length (defaultCombinationOf uniq) uniq 0
    (fun k hk => by rw [Nat.zero_add]; exact getD_map_head? uniq k hk)

theorem clickPositionsOf_clickEntry (l : List Action) (n : Nat) (p : Nat × Nat)
    (h : Option String) (sh : Nat) (u : String) :
    clickPositionsOf (l ++ [.clickAction n (some p) h sh u]) = clickPositionsOf l ++ [p] := by
  rw [clickPositionsOf_append]
  rfl

theorem stepIter_cont_inv (st : LoopState) (i : IterInput) (st2 : LoopState)
    (hstep : stepIter st i = .cont st2)
    (hnd : (clickPositionsOf st.actions).Nodup)
    (hsub : ∀ p ∈ clickPositionsOf st.actions, p ∈ st.clickedPositions) :
    (clickPositionsOf st2.actions).Nodup ∧
      ∀ p ∈ clickPositionsOf st2.actions, p ∈ st2.clickedPositions := by
  unfold stepIter at hstep
  split at hstep
  · exact absurd hstep (by simp)
  · exact absurd hstep (by simp)
  · exact absurd hstep (by simp)
  · rename_i x y hpf
    split at hstep
    · exact absurd hstep (by simp)
    · rename_i hmem
      split at hstep
      · exact absurd hstep (by simp)
      · rename_i html helt
        injection hstep with h2
        subst h2
        have hnotin : (x, y) ∉ clickPositionsOf st.actions := fun hc => hmem (hsub _ hc)
        constructor
        · show (clickPositionsOf
            (st.actions ++ [.clickAction st.actions.length (some (x, y))
              (some (truncateString html)) st.shot st.currentUrl])).Nodup
          rw [clickPositionsOf_clickEntry]
          exact List.Nodup.append hnd (List.nodup_singleton _)
            (by intro a ha hb; rw [List.mem_singleton] at hb; exact hnotin (hb ▸ ha))
        · intro p hpmem
          rw [show ({ st with
                clickedPositions := st.clickedPositions ++ [(x, y)]
                previousElementHTML := some html
                actions := st.actions ++
                  [.clickAction st.actions.length (some (x, y)) (some (truncateString html))
                    st.shot st.currentUrl]
                clickCount := st.clickCount + 1
                shot := st.shot + 1
                currentUrl := i.nextUrl } : LoopState).actions =
              st.actions ++ [.clickAction st.actions.length (some (x, y))
                (some (truncateString html)) st.shot st.currentUrl] from rfl,
            clickPositionsOf_clickEntry, List.mem_append] at hpmem
          rcases hpmem with hpmem | hpmem
          · exact List.mem_append_left _ (hsub _ hpmem)
          · exact List.mem_append_right _ hpmem

theorem stepIter_exit_nodup (st : LoopState) (i : IterInput) (st2 : LoopState) (e : LoopExit)
    (hstep : stepIter st i = .exit st2 e)
    (hnd : (clickPositionsOf st.actions).Nodup) :
    (clickPositionsOf st2.actions).Nodup := by
  unfold stepIter at hstep
  split at hstep
  · injection hstep with h2 h3
    subst h2
    show (clickPositionsOf (st.actions ++ [nullAction st.actions st.shot st.currentUrl])).Nodup
    rw [clickPositionsOf_nullAction]
    exact hnd
  · injection hstep with h2 h3
    subst h2
    exact hnd
  · injection hstep with h2 h3
    subst h2
    exact hnd
  · rename_i x y hpf
    split at hstep
    · injection hstep with h2 h3
      subst h2
      exact hnd
    · split at hstep
      · injection hstep with h2 h3
        subst h2
        show (clickPositionsOf (st.actions ++
          [nullAction st.actions st.shot st.currentUrl])).Nodup
        rw [clickPositionsOf_nullAction]
        exact hnd
      · exact absurd hstep (by simp)

theorem runLoop_nodup (limit : Nat) (ins : List IterInput) :
    ∀ st : LoopState,
      (clickPositionsOf st.actions).Nodup →
      (∀ p ∈ clickPositionsOf st.actions, p ∈ st.clickedPositions) →
      ∀ st2 e, runLoop limit ins st = some (st2, e) →
        (clickPositionsOf st2.actions).Nodup := by
  induction ins with
  | nil =>
    intro st hnd hsub st2 e hrun
    rw [runLoop] at hrun
    split at hrun
    · injection hrun with h
      injection h with h1 h2
      exact h1 ▸ hnd
    · exact absurd hrun (by simp)
  | cons i rest ih =>
    intro st hnd hsub st2 e hrun
    rw [runLoop] at hrun
    split at hrun
    · injection hrun with h
      injection h with h1 h2
      exact h1 ▸ hnd
    · split at hrun
      · rename_i st3 e3 hstep
        injection hrun with h
        injection h with h1 h2
        exact h1 ▸ stepIter_exit_nodup st i st3 e3 hstep hnd
      · rename_i st3 hstep
        obtain ⟨hnd3, hsub3⟩ := stepIter_cont_inv st i st3 hstep hnd hsub
        exact ih st3 hnd3 hsub3 st2 e hrun

/-! ## Claim theorems -/

/-- C7: every persisted flow trace ends on a terminal marker.  Whatever
sequence of oracle responses and page observations a flow sees, if
`performFlow` reaches trace persistence then the last entry of the written
action list is a click entry with a `null` click position (in particular,
when the loop exits at the click ceiling with a non-null last position, the
post-loop branch appends one final null-position entry). -/
theorem performFlow_trace_ends_null (selOpts : Option (List (String × Option String)))
    (limit : Nat) (url0 : String) (ins : List IterInput) (acts : List Action) (e : LoopExit)
    (hrun : performFlow selOpts limit url0 ins = .persisted acts e) :
    ∃ n h sh u, acts.getLast? = some (.clickAction n none h sh u) := by
  unfold performFlow continueFlow at hrun
  rcases hres : runLoop limit ins
      { clickCount := 0, shot := 1, currentUrl := url0, clickedPositions := [],
        previousElementHTML := none, actions := [.selectAction selOpts] } with - | ⟨st, e'⟩
  · rw [hres] at hrun; exact absurd hrun (by simp)
  · rw [hres] at hrun
    have hacts : acts = finalizeActions limit st := by
      injection hrun with h1 h2
      exact h1.symm
    rw [hacts]
    exact finalizeActions_getLast? limit st

theorem performFlow_trace_ends_null_witness :
    ∃ n h sh u,
      ([Action.selectAction none,
        Action.clickAction 1 (some (10, 20)) (some "<a>") 1 "u",
        Action.clickAction 2 none none 2 "v"] : List Action).getLast? =
        some (.clickAction n none h sh u) :=
  performFlow_trace_ends_null none 1 "u"
    [⟨"Click Point: 10, 20", fun _ _ => some "<a>", "v"⟩]
    [Action.selectAction none,
     Action.clickAction 1 (some (10, 20)) (some "<a>") 1 "u",
     Action.clickAction 2 none none 2 "v"] .limitReached rfl

/-- C8 counterexample: the claim says the stored element markup has length at
most 200 after truncation, but `truncateString` returns
`str.slice(0, 200) + '...'`, of length 203: a 201-character outer HTML is
stored with length 203 > 200. -/
theorem truncateString_exceeds_200 :
    ¬ (truncateString (String.mk (List.replicate 201 'a'))).data.length ≤ 200 := by
  decide

/-- C8 (amended): `truncateString` stores strings of length at most 200
unchanged; a longer string is stored as its first 200 characters followed by
`"..."`, so the stored `elementHTML` has length exactly 203 (not at most
200). -/
theorem truncateString_spec (s : String) :
    (s.data.length ≤ 200 → truncateString s = s) ∧
      (200 < s.data.length →
        (truncateString s).data = s.data.take 200 ++ "...".data ∧
          (truncateString s).data.length = 203) := by
  constructor
  · intro hle
    unfold truncateString
    rw [if_neg (by omega)]
  · intro hgt
    have hdata : (truncateString s).data = s.data.take 200 ++ "...".data := by
      unfold truncateString
      rw [if_pos (by omega)]
      exact String.data_append ..
    refine ⟨hdata, ?_⟩
    rw [hdata, List.length_append, List.length_take]
    have h3 : ("..." : String).data.length = 3 := rfl
    rw [h3]
    omega

theorem truncateString_spec_witness :
    truncateString "ab" = "ab" ∧
      (truncateString (String.mk (List.replicate 201 'a'))).data.length = 203 :=
  ⟨(truncateString_spec "ab").1 (by decide),
   ((truncateString_spec (String.mk (List.replicate 201 'a'))).2 (by decide)).2⟩

/-- C9 counterexample: the claim says Flow Executor invocations are capped at
a fixed maximum of 20, but `runCrawler` iterates over the whole `flows`
array with no cap: a page with a single dropdown offering 22 distinct options
yields 21 invocations. -/
theorem runCrawlerSchedule_no_cap :
    (runCrawlerSchedule
        [["a", "b", "c", "d", "e", "f", "g", "h", "i", "j", "k", "l", "m",
          "n", "o", "p", "q", "r", "s", "t", "u", "v"]]).length = 21 ∧
      ¬ (runCrawlerSchedule
        [["a", "b", "c", "d", "e", "f", "g", "h", "i", "j", "k", "l", "m",
          "n", "o", "p", "q", "r", "s", "t", "u", "v"]]).length ≤ 20 := by
  constructor
  · rfl
  · decide

/-- C9 (amended): for a crawl of one URL, `runCrawler` runs exactly one Flow
Executor invocation with no variant (`selectCombination = null`) when the
page exposes no dropdowns, and otherwise one invocation per generated
variant, with no cap on their number. -/
theorem runCrawlerSchedule_spec (sel : List (List String)) :
    (sel = [] → runCrawlerSchedule sel = [none]) ∧
      (sel ≠ [] →
        runCrawlerSchedule sel =
          (buildFlows (deduplicateOptionsWithMapping sel).1).map some) := by
  constructor
  · intro h
    rw [runCrawlerSchedule, if_pos h]
  · intro h
    rw [runCrawlerSchedule, if_neg h]

/-- C1 counterexample: the claim says a `No popups found` response is a no-op
iteration after which the loop re-queries the oracle on the same screenshot
rather than terminating the flow.  In `crawler.js` that branch executes
`break`: with the oracle answering `No popups found` and then offering a
perfectly clickable point, the flow persists immediately with exit
`noPopups` and never processes the second response (no click action is ever
recorded). -/
theorem noPopups_counterexample :
    performFlow none 5 "u"
        [⟨"No popups found", fun _ _ => none, "v"⟩,
         ⟨"Click Point: 10, 20", fun _ _ => some "<a>", "v"⟩] =
      .persisted [.selectAction none, .clickAction 1 none none 1 "u"] .noPopups := rfl

/-- C1 (amended): on a `No popups found` response the Flow Executor appends
no Action for that iteration and does not advance the click counter, but it
exits the main loop (the flow terminates and its trace is persisted with a
terminal null-position entry) instead of re-querying the oracle on the same
screenshot. -/
theorem noPopups_breaks_loop (selOpts : Option (List (String × Option String)))
    (limit : Nat) (url0 : String) (i : IterInput) (rest : List IterInput)
    (hlim : 0 < limit) (hresp : i.response = "No popups found") :
    performFlow selOpts limit url0 (i :: rest) =
      .persisted [.selectAction selOpts, .clickAction 1 none none 1 url0] .noPopups := by
  have hstep : ∀ st : LoopState, stepIter st i = .exit st .noPopups := by
    intro st
    unfold stepIter
    rw [hresp]
    rfl
  unfold performFlow continueFlow runLoop
  rw [if_neg (show ¬ limit ≤ 0 by omega)]
  simp only [hstep]
  unfold finalizeActions
  rw [if_pos (Or.inr (show jsLastClickPosNotNull [Action.selectAction selOpts] = true from rfl))]
  rfl

theorem noPopups_breaks_loop_witness :
    performFlow none 5 "w" [⟨"No popups found", fun _ _ => some "<x>", "v"⟩] =
      .persisted [.selectAction none, .clickAction 1 none none 1 "w"] .noPopups :=
  noPopups_breaks_loop none 5 "w" ⟨"No popups found", fun _ _ => some "<x>", "v"⟩ []
    (by omega) rfl

/-- C6 counterexample: the claim says an unrecognized oracle response is
fatal for the flow — an error that is propagated, not converted into normal
termination.  In `crawler.js` the `!match` branch executes `break`: on the
unrecognized response `"garbage"` the flow does not throw; it leaves the
loop, appends the usual terminal entry and persists the trace exactly like a
normal termination (result `persisted`, not `thrown`). -/
theorem malformed_counterexample :
    performFlow none 5 "u" [⟨"garbage", fun _ _ => none, "v"⟩] =
      .persisted [.selectAction none, .clickAction 1 none none 1 "u"] .invalidData := rfl

/-- C6 (amended): a response line matching none of the recognized forms is
classified `malformed`, and the Flow Executor then breaks out of the main
loop without appending an Action for that iteration and without propagating
an error: the flow terminates normally, persisting its trace with a terminal
null-position entry (exit `invalidData`). -/
theorem malformed_breaks_loop (selOpts : Option (List (String × Option String)))
    (limit : Nat) (url0 : String) (i : IterInput) (rest : List IterInput)
    (hlim : 0 < limit) (hresp : parseResponse i.response = .malformed) :
    performFlow selOpts limit url0 (i :: rest) =
      .persisted [.selectAction selOpts, .clickAction 1 none none 1 url0] .invalidData := by
  have hstep : ∀ st : LoopState, stepIter st i = .exit st .invalidData := by
    intro st
    unfold stepIter
    rw [hresp]
  unfold performFlow continueFlow runLoop
  rw [if_neg (show ¬ limit ≤ 0 by omega)]
  simp only [hstep]
  unfold finalizeActions
  rw [if_pos (Or.inr (show jsLastClickPosNotNull [Action.selectAction selOpts] = true from rfl))]
  rfl

theorem malformed_breaks_loop_witness :
    performFlow none 5 "w" [⟨"nonsense", fun _ _ => some "<x>", "v"⟩] =
      .persisted [.selectAction none, .clickAction 1 none none 1 "w"] .invalidData :=
  malformed_breaks_loop none 5 "w" ⟨"nonsense", fun _ _ => some "<x>", "v"⟩ []
    (by omega) (by decide)

/-- C5 counterexample: the claim says that when the element resolved at the
click position has the same serialized HTML as the previous click's element,
the flow terminates after recording that final Action.  In `crawler.js` the
comparison only logs a warning and continues: here clicks 1 and 2 resolve
the identical element `<a>`, yet the flow goes on to process a third click
at (30, 30) and only stops when the oracle later reports no element — four
click-loop entries are persisted after the stagnant pair. -/
theorem stagnant_counterexample :
    performFlow none 5 "u"
        [⟨"Click Point: 10, 10", fun _ _ => some "<a>", "v"⟩,
         ⟨"Click Point: 20, 20", fun _ _ => some "<a>", "v"⟩,
         ⟨"Click Point: 30, 30", fun _ _ => some "<b>", "v"⟩,
         ⟨"No login button detected", fun _ _ => none, "v"⟩] =
      .persisted
        [.selectAction none,
         .clickAction 1 (some (10, 10)) (some "<a>") 1 "u",
         .clickAction 2 (some (20, 20)) (some "<a>") 2 "v",
         .clickAction 3 (some (30, 30)) (some "<b>") 3 "v",
         .clickAction 4 none none 4 "v"] .noLoginButton := rfl

/-- C5 (amended): when the resolved element's serialized markup equals the
immediately preceding click's element, the Flow Executor logs a warning but
does not terminate: the iteration continues exactly like any other click —
the Action is recorded (with truncated markup), the click counter advances,
and the loop proceeds (`cont`, not `exit`). -/
theorem stagnant_element_continues (st : LoopState) (i : IterInput) (x y : Nat)
    (html : String) (hparse : parseResponse i.response = .click x y)
    (hfresh : (x, y) ∉ st.clickedPositions) (helt : i.elementAt x y = some html)
    (_hstag : st.previousElementHTML = some html) :
    stepIter st i =
      .cont { st with
        clickedPositions := st.clickedPositions ++ [(x, y)]
        previousElementHTML := some html
        actions := st.actions ++
          [.clickAction st.actions.length (some (x, y)) (some (truncateString html))
            st.shot st.currentUrl]
        clickCount := st.clickCount + 1
        shot := st.shot + 1
        currentUrl := i.nextUrl } := by
  unfold stepIter
  rw [hparse]
  simp only [if_neg hfresh, helt]

theorem stagnant_element_continues_witness :
    stepIter
        { clickCount := 1, shot := 2, currentUrl := "u",
          clickedPositions := [(10, 10)], previousElementHTML := some "<a>",
          actions := [.selectAction none,
            .clickAction 1 (some (10, 10)) (some "<a>") 1 "u"] }
        ⟨"Click Point: 20, 20", fun _ _ => some "<a>", "v"⟩ =
      .cont
        { clickCount := 2, shot := 3, currentUrl := "v",
          clickedPositions := [(10, 10), (20, 20)], previousElementHTML := some "<a>",
          actions := [.selectAction none,
            .clickAction 1 (some (10, 10)) (some "<a>") 1 "u",
            .clickAction 2 (some (20, 20)) (some "<a>") 2 "u"] } :=
  stagnant_element_continues
    { clickCount := 1, shot := 2, currentUrl := "u",
      clickedPositions := [(10, 10)], previousElementHTML := some "<a>",
      actions := [.selectAction none,
        .clickAction 1 (some (10, 10)) (some "<a>") 1 "u"] }
    ⟨"Click Point: 20, 20", fun _ _ => some "<a>", "v"⟩ 20 20 "<a>"
    (by decide) (by decide) rfl rfl

theorem runCrawlerSchedule_spec_witness :
    runCrawlerSchedule [] = [none] ∧
      runCrawlerSchedule [["a", "b"]] =
        (buildFlows (deduplicateOptionsWithMapping [["a", "b"]]).1).map some :=
  ⟨(runCrawlerSchedule_spec []).1 rfl,
   (runCrawlerSchedule_spec [["a", "b"]]).2 (by decide)⟩

/-- C2 counterexample: the claim equates the number of generated variants
with the sum over groups of (groupOptionCount - 1).  For the inventory
`[["a", "a"]]` (one dropdown whose two options share the value "a") that sum
is 1, but `runCrawler` generates no variant at all, because the generation
loop skips every option equal to the group default by value, duplicates
included. -/
theorem variant_count_counterexample :
    (buildFlows (deduplicateOptionsWithMapping [["a", "a"]]).1).length = 0 ∧
      ((deduplicateOptionsWithMapping [["a", "a"]]).1.map fun g => g.length - 1).sum = 1 := by
  decide

/-- C2 (amended): for every deduplicated grouping, the number of generated
flow variants equals the sum over all groups of the number of options in the
group whose value differs from the group's first (default) option — not
(groupOptionCount - 1), which overcounts options that duplicate the default
by value.  Every generated variant is the default assignment with exactly
one group changed to such a non-default option. -/
theorem variant_generation_spec (arr : List (List String)) :
    (buildFlows (deduplicateOptionsWithMapping arr).1).length =
      ((deduplicateOptionsWithMapping arr).1.map fun g =>
        (g.filter fun o => !decide (some o = g.head?)).length).sum ∧
      ∀ v ∈ buildFlows (deduplicateOptionsWithMapping arr).1,
        ∃ j o, j < (deduplicateOptionsWithMapping arr).1.length ∧
          some o ≠ (defaultCombinationOf (deduplicateOptionsWithMapping arr).1).getD j none ∧
          v = (defaultCombinationOf (deduplicateOptionsWithMapping arr).1).set j (some o) := by
  refine ⟨buildFlows_length _, ?_⟩
  intro v hv
  obtain ⟨j, o, -, hj, hne, hset⟩ :=
    buildFlowsAux_mem (defaultCombinationOf (deduplicateOptionsWithMapping arr).1)
      (deduplicateOptionsWithMapping arr).1 0 v hv
  exact ⟨j, o, by omega, hne, hset⟩

theorem variant_generation_spec_witness :
    ∃ j o, j < (deduplicateOptionsWithMapping [["a", "b"]]).1.length ∧
      some o ≠ (defaultCombinationOf (deduplicateOptionsWithMapping [["a", "b"]]).1).getD j none ∧
      [some "b"] = (defaultCombinationOf (deduplicateOptionsWithMapping [["a", "b"]]).1).set j (some o) :=
  (variant_generation_spec [["a", "b"]]).2 [some "b"] (by decide)

/-- C10: if the page exposes at least one dropdown but no deduplicated group
offers an option whose value differs from its first (default) option, the
`flows` array is empty and `runCrawler` performs zero Flow Executor
invocations (persisting no trace); and the single no-variant invocation
(`selectCombination = null`) happens only when the select inventory itself
is empty. -/
theorem no_nondefault_variant_means_zero_flows (sel : List (List String)) (hne : sel ≠ []) :
    ((∀ g ∈ (deduplicateOptionsWithMapping sel).1, ∀ o ∈ g, some o = g.head?) →
        runCrawlerSchedule sel = []) ∧
      none ∉ runCrawlerSchedule sel := by
  constructor
  · intro hdef
    rw [runCrawlerSchedule, if_neg hne]
    have hlen : (buildFlows (deduplicateOptionsWithMapping sel).1).length = 0 := by
      rw [buildFlows_length]
      apply List.sum_eq_zero
      intro x hx
      rw [List.mem_map] at hx
      obtain ⟨g, hg, rfl⟩ := hx
      rw [List.length_eq_zero, List.filter_eq_nil_iff]
      intro o ho
      simp [hdef g hg o ho]
    rw [List.length_eq_zero] at hlen
    rw [hlen]
    rfl
  · rw [runCrawlerSchedule, if_neg hne]
    intro hmem
    rw [List.mem_map] at hmem
    obtain ⟨x, -, hx⟩ := hmem
    exact Option.noConfusion hx

theorem no_nondefault_variant_means_zero_flows_witness :
    runCrawlerSchedule [["a"], ["a"], ["b"]] = [] ∧
      none ∉ runCrawlerSchedule [["a"], ["a"], ["b"]] :=
  ⟨(no_nondefault_variant_means_zero_flows [["a"], ["a"], ["b"]] (by decide)).1 (by decide),
   (no_nondefault_variant_means_zero_flows [["a"], ["a"], ["b"]] (by decide)).2⟩

/-- C4: within one flow the Flow Executor never records two Actions with
identical non-null click positions.  First conjunct: every persisted trace
has pairwise-distinct non-null click positions, for every sequence of oracle
responses and page observations.  Second conjunct: when the oracle returns a
`Click(x, y)` whose coordinates were already clicked in this flow, the
iteration rejects the position and exits the loop immediately with
`repeatedPosition`, leaving the state (and thus the trace) unchanged —
the flow terminates without clicking there again. -/
theorem no_duplicate_click_positions :
    (∀ (selOpts : Option (List (String × Option String))) (limit : Nat) (url0 : String)
        (ins : List IterInput) (acts : List Action) (e : LoopExit),
        performFlow selOpts limit url0 ins = .persisted acts e →
          (clickPositionsOf acts).Nodup) ∧
      ∀ (st : LoopState) (i : IterInput) (x y : Nat),
        parseResponse i.response = .click x y → (x, y) ∈ st.clickedPositions →
          stepIter st i = .exit st .repeatedPosition := by
  constructor
  · intro selOpts limit url0 ins acts e hrun
    unfold performFlow continueFlow at hrun
    rcases hres : runLoop limit ins
        { clickCount := 0, shot := 1, currentUrl := url0, clickedPositions := [],
          previousElementHTML := none, actions := [.selectAction selOpts] } with - | ⟨st, e2⟩
    · rw [hres] at hrun
      exact absurd hrun (by simp)
    · rw [hres] at hrun
      have hnd : (clickPositionsOf st.actions).Nodup :=
        runLoop_nodup limit ins _ (by simp [clickPositionsOf]) (by simp [clickPositionsOf])
          st e2 hres
      have hacts : acts = finalizeActions limit st := by
        injection hrun with h1 h2
        exact h1.symm
      rw [hacts]
      unfold finalizeActions
      split
      · rw [clickPositionsOf_nullAction]
        exact hnd
      · exact hnd
  · intro st i x y hparse hmem
    unfold stepIter
    rw [hparse]
    dsimp only
    rw [if_pos hmem]

theorem no_duplicate_click_positions_witness :
    (clickPositionsOf
      [.selectAction none,
       .clickAction 1 (some (50, 50)) (some "<a>") 1 "u",
       .clickAction 2 none none 2 "v"]).Nodup :=
  no_duplicate_click_positions.1 none 5 "u"
    [⟨"Click Point: 50, 50", fun _ _ => some "<a>", "v"⟩,
     ⟨"Click Point: 50, 50", fun _ _ => some "<a>", "v"⟩]
    [.selectAction none,
     .clickAction 1 (some (50, 50)) (some "<a>") 1 "u",
     .clickAction 2 none none 2 "v"] .repeatedPosition rfl

theorem headI_mem_self (l : List Nat) (h : l ≠ []) : l.headI ∈ l := by
  cases l with
  | nil => exact absurd rfl h
  | cons a t => simp [List.headI]

theorem appendAt_length (v : Nat) : ∀ (l : List (List Nat)) (i : Nat),
    (appendAt l i v).length = l.length := by
  intro l
  induction l with
  | nil => intro i; rfl
  | cons g rest ih =>
    intro i
    cases i with
    | zero => rfl
    | succ n => simp [appendAt, ih n]

theorem mem_appendAt (v : Nat) : ∀ (l : List (List Nat)) (i : Nat) (g2 : List Nat),
    g2 ∈ appendAt l i v → g2 ∈ l ∨ ∃ g ∈ l, g2 = g ++ [v] := by
  intro l
  induction l with
  | nil => intro i g2 h; exact absurd h (by simp [appendAt])
  | cons g rest ih =>
    intro i g2 h
    cases i with
    | zero =>
      rw [appendAt, List.mem_cons] at h
      rcases h with h | h
      · exact Or.inr ⟨g, List.mem_cons_self .., h⟩
      · exact Or.inl (List.mem_cons_of_mem _ h)
    | succ n =>
      rw [appendAt, List.mem_cons] at h
      rcases h with h | h
      · exact Or.inl (h ▸ List.mem_cons_self ..)
      · rcases ih n g2 h with h2 | ⟨g3, hg3, hgeq⟩
        · exact Or.inl (List.mem_cons_of_mem _ h2)
        · exact Or.inr ⟨g3, List.mem_cons_of_mem _ hg3, hgeq⟩

theorem appendAt_flatten_perm (v : Nat) : ∀ (l : List (List Nat)) (i : Nat), i < l.length →
    ((appendAt l i v).flatten).Perm (l.flatten ++ [v]) := by
  intro l
  induction l with
  | nil => intro i h; exact absurd h (by simp)
  | cons g rest ih =>
    intro i h
    cases i with
    | zero =>
      rw [appendAt, List.flatten_cons, List.flatten_cons, List.append_assoc,
        List.append_assoc]
      exact List.Perm.append_left g List.perm_append_comm
    | succ n =>
      rw [appendAt, List.flatten_cons, List.flatten_cons, List.append_assoc]
      exact List.Perm.append_left g (ih n (by simpa using h))

theorem appendAt_map_headI (v : Nat) : ∀ (l : List (List Nat)) (i : Nat),
    (∀ g ∈ l, g ≠ []) → (appendAt l i v).map List.headI = l.map List.headI := by
  intro l
  induction l with
  | nil => intro i _; rfl
  | cons g rest ih =>
    intro i hne
    cases i with
    | zero =>
      rw [appendAt, List.map_cons, List.map_cons]
      congr 1
      rcases g with - | ⟨a, t⟩
      · exact absurd rfl (hne [] (List.mem_cons_self ..))
      · rfl
    | succ n =>
      rw [appendAt, List.map_cons, List.map_cons,
        ih n (fun g2 hg2 => hne g2 (List.mem_cons_of_mem _ hg2))]

theorem dedupAux_spec (rest : List (List String)) :
    ∀ (idx : Nat) (uniq : List (List String)) (mapping : List (List Nat)),
      uniq.length = mapping.length →
      (∀ g ∈ mapping, g ≠ []) →
      (∀ g ∈ mapping, ∀ n ∈ g, n < idx) →
      List.Sorted (· < ·) (mapping.map List.headI) →
      ((dedupAux rest idx uniq mapping).2.flatten).Perm
          (mapping.flatten ++ List.range' idx rest.length) ∧
        List.Sorted (· < ·) ((dedupAux rest idx uniq mapping).2.map List.headI) := by
  induction rest with
  | nil =>
    intro idx uniq mapping hlen hne hbound hsort
    exact ⟨by simp [dedupAux], by simpa [dedupAux] using hsort⟩
  | cons opts tail ih =>
    intro idx uniq mapping hlen hne hbound hsort
    rw [dedupAux]
    rcases hfind : uniq.findIdx? (fun u => u = opts) with - | ui
    · dsimp only
      have hne2 : ∀ g ∈ mapping ++ [[idx]], g ≠ [] := by
        intro g hg
        rw [List.mem_append] at hg
        rcases hg with hg | hg
        · exact hne g hg
        · rw [List.mem_singleton] at hg
          simp [hg]
      have hbound2 : ∀ g ∈ mapping ++ [[idx]], ∀ n ∈ g, n < idx + 1 := by
        intro g hg n hn
        rw [List.mem_append] at hg
        rcases hg with hg | hg
        · exact Nat.lt_succ_of_lt (hbound g hg n hn)
        · rw [List.mem_singleton] at hg
          subst hg
          rw [List.mem_singleton] at hn
          omega
      have hsort2 : List.Sorted (· < ·) ((mapping ++ [[idx]]).map List.headI) := by
        rw [List.map_append]
        rw [List.Sorted, List.pairwise_append]
        refine ⟨hsort, by simp, ?_⟩
        intro a ha b hb
        rw [List.mem_map] at ha
        obtain ⟨g, hg, rfl⟩ := ha
        rw [show ([[idx]] : List (List Nat)).map List.headI = [idx] from rfl,
          List.mem_singleton] at hb
        subst hb
        exact hbound g hg _ (headI_mem_self g (hne g hg))
      obtain ⟨hperm, hsorted⟩ := ih (idx + 1) (uniq ++ [opts]) (mapping ++ [[idx]])
        (by simp [hlen]) hne2 hbound2 hsort2
      refine ⟨?_, hsorted⟩
      refine hperm.trans ?_
      rw [List.flatten_append, show ([[idx]] : List (List Nat)).flatten = [idx] by simp,
        List.append_assoc, List.length_cons, List.range'_succ]
      exact List.Perm.refl _
    · dsimp only
      have hui : ui < mapping.length := by
        rw [List.findIdx?_eq_some_iff_getElem] at hfind
        obtain ⟨h1, -, -⟩ := hfind
        omega
      have hne2 : ∀ g ∈ appendAt mapping ui idx, g ≠ [] := by
        intro g hg
        rcases mem_appendAt idx mapping ui g hg with hg2 | ⟨g3, -, rfl⟩
        · exact hne g hg2
        · simp
      have hbound2 : ∀ g ∈ appendAt mapping ui idx, ∀ n ∈ g, n < idx + 1 := by
        intro g hg n hn
        rcases mem_appendAt idx mapping ui g hg with hg2 | ⟨g3, hg3, rfl⟩
        · exact Nat.lt_succ_of_lt (hbound g hg2 n hn)
        · rw [List.mem_append] at hn
          rcases hn with hn | hn
          · exact Nat.lt_succ_of_lt (hbound g3 hg3 n hn)
          · rw [List.mem_singleton] at hn
            omega
      have hsort2 : List.Sorted (· < ·) ((appendAt mapping ui idx).map List.headI) := by
        rw [appendAt_map_headI idx mapping ui hne]
        exact hsort
      obtain ⟨hperm, hsorted⟩ := ih (idx + 1) uniq (appendAt mapping ui idx)
        (by rw [hlen, appendAt_length]) hne2 hbound2 hsort2
      refine ⟨?_, hsorted⟩
      refine hperm.trans ?_
      refine List.Perm.trans
        (List.Perm.append_right _ (appendAt_flatten_perm idx mapping ui hui)) ?_
      rw [List.append_assoc, List.length_cons, List.range'_succ]
      exact List.Perm.refl _

/-- C3: for every select inventory of N option-lists, the groups produced by
`deduplicateOptionsWithMapping` exactly partition the index set: the
concatenation of all groups' index lists is a permutation of `[0, ..., N-1]`
(every original dropdown index appears in exactly one group, none missing,
none duplicated), and the groups are ordered by their first member's index —
first-seen order. -/
theorem dedup_partitions_indices (arr : List (List String)) :
    ((deduplicateOptionsWithMapping arr).2.flatten).Perm (List.range arr.length) ∧
      List.Sorted (· < ·) ((deduplicateOptionsWithMapping arr).2.map List.headI) := by
  obtain ⟨hperm, hsort⟩ := dedupAux_spec arr 0 [] [] rfl (by simp) (by simp) (by simp)
  refine ⟨?_, hsort⟩
  refine hperm.trans ?_
  rw [List.range_eq_range']
  exact List.Perm.refl _

end LoginGPT
